import Mathlib

/-!
Verification of the request-dispatch pipeline of the `http-proxy` repository.

The development is a shallow embedding of `src/main.rs` and `src/error.rs`:
pure fragments become Lean functions, the shared client registry becomes
explicit state passing, and the external collaborators (the route catalogue
`twilight_http::routing::Path::try_from`, the upstream client call
`Client::raw`, and the prometheus text encoder) are parameters of the
embedded dispatch function, mirroring the interface boundary drawn in the
specification.  Byte strings are `List Nat`, character strings `List Char`.
-/

set_option maxHeartbeats 1000000

deriving instance DecidableEq for Except

namespace HttpProxy

/-- Inbound HTTP methods (the `http` crate's method type; extension methods
are represented by their name). -/
inductive Method where
  | get | post | put | patch | delete | head | options | trace | connect
  | other (s : String)
deriving DecidableEq

/-- Textual name of an inbound method (`http::Method::as_str`). -/
def methodStr : Method → String
  | .get => "GET"
  | .post => "POST"
  | .put => "PUT"
  | .patch => "PATCH"
  | .delete => "DELETE"
  | .head => "HEAD"
  | .options => "OPTIONS"
  | .trace => "TRACE"
  | .connect => "CONNECT"
  | .other s => s

/-- The upstream client's method type (`twilight_http::request::Method`). -/
inductive TwMethod where
  | delete | get | patch | post | put
deriving DecidableEq

/-- The inbound URI: its path, its query part (empty or beginning with a
question mark) and whether a path-and-query component is present at all.
When present, the path-and-query string is the path followed by the query. -/
structure Uri where
  path : List Char
  query : List Char
  pqPresent : Bool
deriving DecidableEq

/-- `uri.path_and_query()` as used on line 210 of `src/main.rs`. -/
def pathAndQuery (u : Uri) : Option (List Char) :=
  if u.pqPresent then some (u.path ++ u.query) else none

/-- The inbound header map.  Only the Authorization entry is ever inspected
by the pipeline; the map itself is carried through to the translated request
opaquely.  A header value is a byte list. -/
structure Headers where
  authorization : Option (List Nat)
deriving DecidableEq

/-- The error type of `src/error.rs` (`RequestError`); the wrapped library
error payloads (`source` fields) are dropped. -/
inductive RequestError where
  | base64Error
  | chunkingRequest
  | encodingError
  | invalidPath
  | makingResponseBody
  | methodNotAllowed (method : String)
  | missingAuthorization
  | noPath (uri : Uri)
  | parseError
  | requestIssue
deriving DecidableEq

/-- `convert_method` of `src/main.rs` (lines 256-265): exactly DELETE, GET,
PATCH, POST and PUT convert; anything else is a `MethodNotAllowed` error
carrying the method's name. -/
def convertMethod : Method → Except RequestError TwMethod
  | .delete => .ok .delete
  | .get => .ok .get
  | .patch => .ok .patch
  | .post => .ok .post
  | .put => .ok .put
  | m => .error (.methodNotAllowed (methodStr m))

/-- Fuelled worker for `removeAll`; the fuel only forces structural
recursion and is irrelevant whenever it dominates the list length. -/
def removeAllF (pat : List Char) : Nat → List Char → List Char
  | _, [] => []
  | 0, s => s
  | fuel + 1, c :: s =>
    if pat ≠ [] ∧ pat.isPrefixOf (c :: s) = true then
      removeAllF pat fuel (List.drop (pat.length - 1) s)
    else
      c :: removeAllF pat fuel s

/-- Rust `str::replace(pat, "")` as used on lines 186 and 211 of
`src/main.rs`: every non-overlapping occurrence of `pat` is removed,
scanning left to right.  (An empty pattern removes nothing.) -/
def removeAll (pat s : List Char) : List Char := removeAllF pat s.length s

/-- Whether `pat` occurs as a contiguous segment of the second list. -/
def containsSeg (pat : List Char) : List Char → Bool
  | [] => pat.isEmpty
  | c :: s => pat.isPrefixOf (c :: s) || containsSeg pat s

/-- The versioned API stem `format!("/api/v{}/", API_VERSION)` (line 173 of
`src/main.rs`); the library constant `API_VERSION` is the parameter `v`. -/
def apiUrl (v : Nat) : List Char := ("/api/v" ++ toString v ++ "/").toList

/-- Lines 185-189 of `src/main.rs`: the route-resolution path.  When the
request path starts with the version stem, `replace(stem, "")` is applied to
it; otherwise the path is kept unchanged. -/
def trimPath (v : Nat) (p : List Char) : List Char :=
  if (apiUrl v).isPrefixOf p then removeAll (apiUrl v) p else p

/-- Line 211 of `src/main.rs`: the literal upstream path string —
`replace(stem, "")` applied unconditionally to the full path-and-query. -/
def pathStrOf (v : Nat) (pq : List Char) : List Char := removeAll (apiUrl v) pq

/-- Value of one character of the standard base64 alphabet. -/
def b64Val (c : Char) : Option Nat :=
  if 'A' ≤ c ∧ c ≤ 'Z' then some (c.toNat - 65)
  else if 'a' ≤ c ∧ c ≤ 'z' then some (c.toNat - 97 + 26)
  else if '0' ≤ c ∧ c ≤ '9' then some (c.toNat - 48 + 52)
  else if c = '+' then some 62
  else if c = '/' then some 63
  else none

/-- `base64::decode` (standard alphabet, as called on line 207 of
`src/main.rs`): 4-character blocks of sextets, an optionally padded or
unpadded final block of 2 or 3 data characters whose unused trailing bits
must be zero, failure on any character outside the alphabet and on a
leftover length of 1. -/
def base64Decode : List Char → Option (List Nat)
  | [] => some []
  | [a, b] => do
    let va ← b64Val a
    let vb ← b64Val b
    if vb % 16 = 0 then some [va * 4 + vb / 16] else none
  | [a, b, c] => do
    let va ← b64Val a
    let vb ← b64Val b
    let vc ← b64Val c
    if vc % 4 = 0 then some [va * 4 + vb / 16, (vb % 16) * 16 + vc / 4] else none
  | [a, b, '=', '='] => do
    let va ← b64Val a
    let vb ← b64Val b
    if vb % 16 = 0 then some [va * 4 + vb / 16] else none
  | [a, b, c, '='] => do
    let va ← b64Val a
    let vb ← b64Val b
    let vc ← b64Val c
    if vc % 4 = 0 then some [va * 4 + vb / 16, (vb % 16) * 16 + vc / 4] else none
  | a :: b :: c :: d :: rest => do
    let va ← b64Val a
    let vb ← b64Val b
    let vc ← b64Val c
    let vd ← b64Val d
    let tail ← base64Decode rest
    some ([va * 4 + vb / 16, (vb % 16) * 16 + vc / 4, (vc % 4) * 64 + vd] ++ tail)
  | _ => none

/-- `str::from_utf8` (line 208 of `src/main.rs`): strict UTF-8 decoding,
rejecting continuation errors, overlong forms, surrogates and code points
above `0x10FFFF`. -/
def utf8Decode : List Nat → Option (List Char)
  | [] => some []
  | b :: rest =>
    if b < 128 then
      match utf8Decode rest with
      | some cs => some (Char.ofNat b :: cs)
      | none => none
    else if b < 194 then none
    else if b < 224 then
      match rest with
      | c :: rest2 =>
        if 128 ≤ c ∧ c < 192 then
          match utf8Decode rest2 with
          | some cs => some (Char.ofNat ((b - 192) * 64 + (c - 128)) :: cs)
          | none => none
        else none
      | [] => none
    else if b < 240 then
      match rest with
      | c :: d :: rest3 =>
        if (128 ≤ c ∧ c < 192) ∧ (128 ≤ d ∧ d < 192)
            ∧ (b ≠ 224 ∨ 160 ≤ c) ∧ (b ≠ 237 ∨ c < 160) then
          match utf8Decode rest3 with
          | some cs =>
            some (Char.ofNat ((b - 224) * 4096 + (c - 128) * 64 + (d - 128)) :: cs)
          | none => none
        else none
      | _ => none
    else if b < 245 then
      match rest with
      | c :: d :: e :: rest4 =>
        if (128 ≤ c ∧ c < 192) ∧ (128 ≤ d ∧ d < 192) ∧ (128 ≤ e ∧ e < 192)
            ∧ (b ≠ 240 ∨ 144 ≤ c) ∧ (b ≠ 244 ∨ c < 144) then
          match utf8Decode rest4 with
          | some cs =>
            some (Char.ofNat
              ((b - 240) * 262144 + (c - 128) * 4096 + (d - 128) * 64 + (e - 128)) :: cs)
          | none => none
        else none
      | _ => none
    else none

/-- `str::parse::<u64>` (line 208 of `src/main.rs`): an optional leading
plus sign, then one or more ASCII digits, value bounded by `u64::MAX`. -/
def parseU64 (s : List Char) : Option Nat :=
  let digits := match s with
    | '+' :: rest => rest
    | _ => s
  if digits ≠ [] ∧ digits.all (fun c => c.isDigit) then
    let v := digits.foldl (fun acc c => acc * 10 + (c.toNat - 48)) 0
    if v < 18446744073709551616 then some v else none
  else none

/-- `HeaderValue::to_str` (line 196 of `src/main.rs`): readable exactly when
every byte is visible ASCII or horizontal tab. -/
def headerToStr (bytes : List Nat) : Option (List Char) :=
  if bytes.all (fun b => (32 ≤ b && b < 127) || b == 9) then
    some (bytes.map Char.ofNat)
  else none

/-- Lines 202-204 of `src/main.rs`: the case-sensitive literal `"Bot "` is
stripped exactly when the credential starts with it. -/
def stripBotToken (t : List Char) : List Char :=
  if ("Bot ".toList).isPrefixOf t then t.drop 4 else t

/-- Line 206 of `src/main.rs`: `token.split(".").next().unwrap()` — the
segment before the first dot, or the whole string when no dot occurs. -/
def firstSegment (t : List Char) : List Char := t.takeWhile (fun c => c != '.')

/-- Lines 202-208 of `src/main.rs`: bot-identity extraction from the
authorization header text. -/
def extractBotId (t : List Char) : Except RequestError Nat :=
  match base64Decode (firstSegment (stripBotToken t)) with
  | none => .error .base64Error
  | some bytes =>
    match utf8Decode bytes with
    | none => .error .encodingError
    | some s =>
      match parseU64 s with
      | none => .error .parseError
      | some n => .ok n

example : extractBotId "Bot MTIz.signature.part".toList = .ok 123 := by decide
example : extractBotId "MTIz".toList = .ok 123 := by decide
example : extractBotId "!!!.x".toList = .error .base64Error := by decide
example : base64Decode "MTIz".toList = some [49, 50, 51] := by decide
example : removeAll "/api/v1/".toList "/api/v1/a/api/v1/b?q=/api/v1/c".toList
    = "ab?q=c".toList := by decide

/-- An upstream client handle (`twilight_http::client::Client`).  A handle is
bound to the credential it was built from (`Client::new(token)`); `birth` is
an allocation tag distinguishing handle instances, so that two handles built
by distinct `Client::new` calls are distinct values even for equal tokens.
Cloning a handle (the registry's read path) shares the instance, hence is
modelled as returning the same value. -/
structure Client where
  token : List Char
  birth : Nat
deriving DecidableEq

/-- The client registry contents: the `HashMap<UserId, Client>` behind the
mutex, as an association list (insertion only ever happens for absent keys,
so first-match lookup is exactly the map semantics). -/
abbrev Registry := List (Nat × Client)

/-- `HashMap::get` on the registry. -/
def regGet (botId : Nat) : Registry → Option Client
  | [] => none
  | (k, v) :: rest => if k = botId then some v else regGet botId rest

/-- `get_client` of `src/main.rs` (lines 267-276): return the cached handle
when one exists, otherwise build a handle from the supplied token, insert it
and return it.  The whole function runs under the registry mutex, so any
concurrent execution is an interleaving of these atomic steps.  The fresh
allocation tag is the current registry size. -/
def getClient (botId : Nat) (token : List Char) (clients : Registry) :
    Client × Registry :=
  match regGet botId clients with
  | some v => (v, clients)
  | none =>
    let c : Client := ⟨token, clients.length⟩
    (c, (botId, c) :: clients)

/-- A serialized history of `get_client` calls (the order in which concurrent
requests acquired the registry mutex): each call is a bot id with the token
of its request.  Returns each call's result paired with its id, and the final
registry. -/
def runFrom (clients : Registry) : List (Nat × List Char) → List (Nat × Client) × Registry
  | [] => ([], clients)
  | (i, t) :: ops =>
    let step := getClient i t clients
    let rest := runFrom step.2 ops
    ((i, step.1) :: rest.1, rest.2)

/-- One dispatch step of the pipeline, recorded in order of completion. -/
inductive Ev where
  | methodOk | pathResolved | bodyRead | authRead | idExtracted
  | registryAccess | upstream
deriving DecidableEq

/-- The inbound request as seen by `handle_request`: its parts plus the
outcome that reading (`hyper::body::to_bytes`) its body would produce —
either the buffered bytes or a transport failure. -/
structure InboundRequest where
  method : Method
  uri : Uri
  headers : Headers
  body : Except Unit (List Nat)
deriving DecidableEq

/-- `twilight_http::request::Request` as built on lines 221-228 of
`src/main.rs`.  The route type `P` is the external route catalogue's
descriptor type. -/
structure TwilightReq (P : Type) where
  body : Option (List Nat)
  form : Option Unit
  headers : Option Headers
  method : TwMethod
  path : P
  pathStr : List Char
deriving DecidableEq

/-- The observable result of one `handle_request` run: the response or
error, the trace of completed steps, the registry afterwards, and the
translated request handed to the upstream client (if the call was reached). -/
structure DispatchOut (P R : Type) where
  outcome : Except RequestError R
  events : List Ev
  registry : Registry
  sent : Option (TwilightReq P)
deriving DecidableEq

/-- `handle_request` of `src/main.rs` (lines 169-254), with the external
collaborators as parameters: `resolve` is the route catalogue
(`Path::try_from`, failure = `InvalidPath`), `upstreamCall` is the bound
client's `raw` call (failure = `RequestIssue`).  The steps happen in source
order: method conversion, route resolution on the trimmed path, body
buffering, authorization lookup, identity extraction, path-and-query
construction, registry lookup-or-insert, upstream call. -/
def handleRequest {P R : Type} (v : Nat)
    (resolve : TwMethod → List Char → Option P)
    (upstreamCall : Client → TwilightReq P → Except Unit R)
    (clients : Registry) (request : InboundRequest) : DispatchOut P R :=
  match convertMethod request.method with
  | .error e => ⟨.error e, [], clients, none⟩
  | .ok convertedMethod =>
    match resolve convertedMethod (trimPath v request.uri.path) with
    | none => ⟨.error .invalidPath, [.methodOk], clients, none⟩
    | some routePath =>
      match request.body with
      | .error _ => ⟨.error .chunkingRequest, [.methodOk, .pathResolved], clients, none⟩
      | .ok bytes =>
        match request.headers.authorization.bind headerToStr with
        | none =>
          ⟨.error .missingAuthorization, [.methodOk, .pathResolved, .bodyRead],
            clients, none⟩
        | some rawToken =>
          let token := stripBotToken rawToken
          match extractBotId rawToken with
          | .error e =>
            ⟨.error e, [.methodOk, .pathResolved, .bodyRead, .authRead], clients, none⟩
          | .ok botId =>
            match pathAndQuery request.uri with
            | none =>
              ⟨.error (.noPath request.uri),
                [.methodOk, .pathResolved, .bodyRead, .authRead, .idExtracted],
                clients, none⟩
            | some pq =>
              let raw : TwilightReq P :=
                ⟨if bytes = [] then none else some bytes, none, some request.headers,
                  convertedMethod, routePath, pathStrOf v pq⟩
              let step := getClient botId token clients
              match upstreamCall step.1 raw with
              | .error _ =>
                ⟨.error .requestIssue,
                  [.methodOk, .pathResolved, .bodyRead, .authRead, .idExtracted,
                    .registryAccess, .upstream],
                  step.2, some raw⟩
              | .ok resp =>
                ⟨.ok resp,
                  [.methodOk, .pathResolved, .bodyRead, .authRead, .idExtracted,
                    .registryAccess, .upstream],
                  step.2, some raw⟩

/-- Which handler a connection's service closure picks (lines 86-95 of
`src/main.rs`, metrics feature enabled): the test is on the URI path alone;
the request method is available in `incoming` but is not consulted. -/
inductive Handler where
  | metrics | dispatch
deriving DecidableEq

/-- The routing test of the service closure. -/
def selectHandler (_m : Method) (uriPath : List Char) : Handler :=
  if uriPath = "/metrics".toList then .metrics else .dispatch

/-- The spec's words for the metrics route ("a GET-only path"): the metrics
handler serves the path only for GET requests. -/
def claimedSelectHandler (m : Method) (uriPath : List Char) : Handler :=
  if uriPath = "/metrics".toList ∧ m = .get then .metrics else .dispatch

/-- `handle_metrics` of `src/main.rs` (lines 278-307).  `encoded` is the
prometheus text encoder's output on the gathered registry (a byte buffer or
a failure), `dbgEnc` and `dbgUtf8` are the Debug renderings of the two
possible library errors.  Result: status code and body.  A successful
encoding that is valid UTF-8 is served with the builder's default status
200; either failure produces status 500 with the diagnostic body. -/
def handleMetrics (dbgEnc dbgUtf8 : List Char)
    (encoded : Except Unit (List Nat)) : Nat × List Char :=
  match encoded with
  | .error _ => (500, dbgEnc)
  | .ok buffer =>
    match utf8Decode buffer with
    | some s => (200, s)
    | none => (500, dbgUtf8)

/-- The response of the per-connection service: either a metrics snapshot
response or a proxied dispatch outcome. -/
inductive ServiceResp (R : Type) where
  | metrics (status : Nat) (body : List Char)
  | proxied (outcome : Except RequestError R)
deriving DecidableEq

/-- Observable result of one service invocation. -/
structure ServiceOut (P R : Type) where
  resp : ServiceResp R
  registry : Registry
  events : List Ev
deriving DecidableEq

/-- The service closure of `main` with the metrics feature enabled: requests
whose URI path is `/metrics` go to `handle_metrics` (which never receives
the registry), everything else goes through `handle_request`. -/
def service {P R : Type} (v : Nat) (dbgEnc dbgUtf8 : List Char)
    (encoded : Except Unit (List Nat))
    (resolve : TwMethod → List Char → Option P)
    (upstreamCall : Client → TwilightReq P → Except Unit R)
    (clients : Registry) (request : InboundRequest) : ServiceOut P R :=
  match selectHandler request.method request.uri.path with
  | .metrics =>
    let m := handleMetrics dbgEnc dbgUtf8 encoded
    ⟨.metrics m.1 m.2, clients, []⟩
  | .dispatch =>
    let d := handleRequest v resolve upstreamCall clients request
    ⟨.proxied d.outcome, d.registry, d.events⟩

/-- The spec's words for the forwarded string ("the original path-and-query
with that same prefix stripped while every query parameter is preserved
verbatim"): strip the version stem exactly once, when leading, and keep the
rest of the string unchanged. -/
def claimedForwardString (v : Nat) (pq : List Char) : List Char :=
  if (apiUrl v).isPrefixOf pq then pq.drop (apiUrl v).length else pq

/-! Helper lemmas. -/

theorem removeAllF_irrel (pat : List Char) :
    ∀ f₁ f₂ s, s.length ≤ f₁ → s.length ≤ f₂ →
      removeAllF pat f₁ s = removeAllF pat f₂ s := by
  intro f₁
  induction f₁ with
  | zero =>
    intro f₂ s h1 _
    have hs : s = [] := List.eq_nil_of_length_eq_zero (Nat.le_zero.mp h1)
    subst hs
    cases f₂ <;> simp [removeAllF]
  | succ f ih =>
    intro f₂ s h1 h2
    cases s with
    | nil => cases f₂ <;> simp [removeAllF]
    | cons c s =>
      cases f₂ with
      | zero => simp at h2
      | succ f₂ =>
        simp only [removeAllF]
        by_cases hc : pat ≠ [] ∧ pat.isPrefixOf (c :: s) = true
        · rw [if_pos hc, if_pos hc]
          have hd1 : (List.drop (pat.length - 1) s).length ≤ f := by
            simp only [List.length_drop]
            simp only [List.length_cons] at h1
            omega
          have hd2 : (List.drop (pat.length - 1) s).length ≤ f₂ := by
            simp only [List.length_drop]
            simp only [List.length_cons] at h2
            omega
          exact ih f₂ _ hd1 hd2
        · rw [if_neg hc, if_neg hc]
          have h1' : s.length ≤ f := by simp only [List.length_cons] at h1; omega
          have h2' : s.length ≤ f₂ := by simp only [List.length_cons] at h2; omega
          rw [ih f₂ s h1' h2']

theorem removeAll_nil (pat : List Char) : removeAll pat [] = [] := rfl

theorem removeAll_cons (pat : List Char) (c : Char) (s : List Char) :
    removeAll pat (c :: s) =
      if pat ≠ [] ∧ pat.isPrefixOf (c :: s) = true then
        removeAll pat (List.drop (pat.length - 1) s)
      else c :: removeAll pat s := by
  show removeAllF pat (c :: s).length (c :: s) = _
  simp only [List.length_cons, removeAllF]
  by_cases hc : pat ≠ [] ∧ pat.isPrefixOf (c :: s) = true
  · rw [if_pos hc, if_pos hc]
    exact removeAllF_irrel pat s.length _ _
      (by simp only [List.length_drop]; omega) (le_refl _)
  · rw [if_neg hc, if_neg hc]
    rfl

theorem isPrefixOf_append_self (p t : List Char) : p.isPrefixOf (p ++ t) = true := by
  induction p with
  | nil => simp [List.isPrefixOf]
  | cons a p ih => simp [List.isPrefixOf, ih]

theorem isPrefixOf_append_left (p x y : List Char) (h : p.isPrefixOf x = true) :
    p.isPrefixOf (x ++ y) = true := by
  induction p generalizing x with
  | nil => simp [List.isPrefixOf]
  | cons a p ih =>
    cases x with
    | nil => simp [List.isPrefixOf] at h
    | cons b x =>
      simp only [List.isPrefixOf, Bool.and_eq_true] at h
      simp only [List.cons_append, List.isPrefixOf, Bool.and_eq_true]
      exact ⟨h.1, ih x h.2⟩

theorem containsSeg_append_left (pat x y : List Char) (hne : pat ≠ [])
    (h : containsSeg pat x = true) : containsSeg pat (x ++ y) = true := by
  induction x with
  | nil =>
    exfalso
    simp only [containsSeg, List.isEmpty_iff] at h
    exact hne h
  | cons c x ih =>
    simp only [containsSeg, Bool.or_eq_true] at h
    simp only [List.cons_append, containsSeg, Bool.or_eq_true]
    rcases h with h | h
    · exact Or.inl (isPrefixOf_append_left pat (c :: x) y h)
    · exact Or.inr (ih h)

theorem removeAll_eq_self (pat s : List Char) (h : containsSeg pat s = false) :
    removeAll pat s = s := by
  induction s with
  | nil => rfl
  | cons c s ih =>
    simp only [containsSeg, Bool.or_eq_false_iff] at h
    rw [removeAll_cons, if_neg, ih h.2]
    intro hc
    rw [hc.2] at h
    exact Bool.noConfusion h.1

theorem removeAll_stem (a : Char) (pt s : List Char) :
    removeAll (a :: pt) ((a :: pt) ++ s) = removeAll (a :: pt) s := by
  rw [List.cons_append, removeAll_cons, if_pos]
  · have : List.drop ((a :: pt).length - 1) (pt ++ s) = s := by
      simp only [List.length_cons, Nat.add_sub_cancel]
      exact List.drop_left pt s
    rw [this]
  · constructor
    · simp
    · rw [← List.cons_append]
      exact isPrefixOf_append_self (a :: pt) s

theorem apiUrl_shape (v : Nat) : ∃ pt, apiUrl v = '/' :: pt := by
  refine ⟨("api/v" ++ toString v ++ "/").toList, ?_⟩
  simp [apiUrl, String.toList]

theorem takeWhile_of_no_dot (t : List Char) (h : ∀ c ∈ t, c ≠ '.') :
    t.takeWhile (fun c => c != '.') = t := by
  induction t with
  | nil => rfl
  | cons c s ih =>
    have hc : (c != '.') = true := bne_iff_ne.mpr (h c (List.mem_cons_self c s))
    simp only [List.takeWhile_cons, hc, if_true]
    rw [ih (fun x hx => h x (List.mem_cons_of_mem c hx))]

/-! Registry lemmas. -/

theorem getClient_regGet (i : Nat) (t : List Char) (r : Registry) :
    regGet i (getClient i t r).2 = some (getClient i t r).1 := by
  cases h : regGet i r with
  | some v => simp [getClient, h]
  | none => simp [getClient, h, regGet]

theorem getClient_stable (i j : Nat) (t : List Char) (r : Registry) (c : Client)
    (h : regGet j r = some c) : regGet j (getClient i t r).2 = some c := by
  cases hg : regGet i r with
  | some v => simp [getClient, hg, h]
  | none =>
    by_cases hij : i = j
    · subst hij
      rw [hg] at h
      cases h
    · simp [getClient, hg, regGet, hij, h]

theorem runFrom_stable (j : Nat) (c : Client) :
    ∀ (ops : List (Nat × List Char)) (r : Registry), regGet j r = some c →
      regGet j (runFrom r ops).2 = some c := by
  intro ops
  induction ops with
  | nil => intro r h; simpa [runFrom] using h
  | cons op rest ih =>
    intro r h
    cases op with
    | mk i t =>
      simp only [runFrom]
      exact ih _ (getClient_stable i j t r c h)

theorem runFrom_out (j : Nat) (c : Client) :
    ∀ (ops : List (Nat × List Char)) (r : Registry),
      (j, c) ∈ (runFrom r ops).1 → regGet j (runFrom r ops).2 = some c := by
  intro ops
  induction ops with
  | nil => intro r h; simp [runFrom] at h
  | cons op rest ih =>
    intro r h
    cases op with
    | mk i t =>
      simp only [runFrom, List.mem_cons, Prod.mk.injEq] at h
      rcases h with ⟨rfl, rfl⟩ | h
      · simp only [runFrom]
        exact runFrom_stable _ _ rest _ (getClient_regGet _ t r)
      · simp only [runFrom]
        exact ih _ h

theorem regGet_none_notMem (i : Nat) (r : Registry) (h : regGet i r = none) :
    i ∉ r.map Prod.fst := by
  induction r with
  | nil => simp
  | cons p rest ih =>
    cases p with
    | mk k v =>
      simp only [regGet] at h
      by_cases hk : k = i
      · rw [if_pos hk] at h
        cases h
      · rw [if_neg hk] at h
        simp only [List.map_cons, List.mem_cons, not_or]
        exact ⟨fun hh => hk hh.symm, ih h⟩

theorem getClient_nodup (i : Nat) (t : List Char) (r : Registry)
    (h : (r.map Prod.fst).Nodup) : ((getClient i t r).2.map Prod.fst).Nodup := by
  cases hg : regGet i r with
  | some v => simpa [getClient, hg] using h
  | none =>
    simp only [getClient, hg, List.map_cons]
    exact List.nodup_cons.mpr ⟨regGet_none_notMem i r hg, h⟩

theorem runFrom_nodup :
    ∀ (ops : List (Nat × List Char)) (r : Registry), (r.map Prod.fst).Nodup →
      ((runFrom r ops).2.map Prod.fst).Nodup := by
  intro ops
  induction ops with
  | nil => intro r h; simpa [runFrom] using h
  | cons op rest ih =>
    intro r h
    cases op with
    | mk i t =>
      simp only [runFrom]
      exact ih _ (getClient_nodup i t r h)

/-- Inversion of the pipeline: whenever a translated request was handed to
the upstream client, every earlier step succeeded and the translated request
is exactly the one built on lines 221-228 from those steps' results. -/
theorem sent_inversion {P R : Type} (v : Nat)
    (resolve : TwMethod → List Char → Option P)
    (upstreamCall : Client → TwilightReq P → Except Unit R)
    (clients : Registry) (request : InboundRequest) (tr : TwilightReq P)
    (h : (handleRequest v resolve upstreamCall clients request).sent = some tr) :
    ∃ tm p bytes rawToken pq,
      convertMethod request.method = .ok tm ∧
      resolve tm (trimPath v request.uri.path) = some p ∧
      request.body = .ok bytes ∧
      request.headers.authorization.bind headerToStr = some rawToken ∧
      pathAndQuery request.uri = some pq ∧
      tr = ⟨if bytes = [] then none else some bytes, none, some request.headers, tm, p,
        pathStrOf v pq⟩ := by
  cases hm : convertMethod request.method with
  | error e => simp [handleRequest, hm] at h
  | ok tm =>
    cases hp : resolve tm (trimPath v request.uri.path) with
    | none => simp [handleRequest, hm, hp] at h
    | some p =>
      cases hb : request.body with
      | error u => simp [handleRequest, hm, hp, hb] at h
      | ok bytes =>
        cases ha : request.headers.authorization.bind headerToStr with
        | none => simp [handleRequest, hm, hp, hb, ha] at h
        | some rawToken =>
          cases he : extractBotId rawToken with
          | error e => simp [handleRequest, hm, hp, hb, ha, he] at h
          | ok botId =>
            cases hq : pathAndQuery request.uri with
            | none => simp [handleRequest, hm, hp, hb, ha, he, hq] at h
            | some pq =>
              refine ⟨tm, p, bytes, rawToken, pq, rfl, hp, rfl, rfl, rfl, ?_⟩
              simp only [handleRequest, hm, hp, hb, ha, he, hq] at h
              split at h <;> simp_all

/-- Claim C1: along every serialized history of `get_client` calls starting
from the empty registry (the registry mutex makes each call atomic, so a
concurrent execution is exactly such a history), the registry never holds
two entries for one bot identity, every two calls for the same identity
return the same handle — the one inserted by the first such call — and every
later lookup observes exactly that single handle. -/
theorem registry_single_handle_per_identity (ops : List (Nat × List Char)) :
    (∀ pre suf, pre ++ suf = ops → ((runFrom [] pre).2.map Prod.fst).Nodup) ∧
    (∀ i c₁ c₂, (i, c₁) ∈ (runFrom [] ops).1 → (i, c₂) ∈ (runFrom [] ops).1 →
      c₁ = c₂) ∧
    (∀ i c, (i, c) ∈ (runFrom [] ops).1 → regGet i (runFrom [] ops).2 = some c) := by
  refine ⟨?_, ?_, ?_⟩
  · intro pre _ _
    exact runFrom_nodup pre [] (by simp)
  · intro i c₁ c₂ h₁ h₂
    have e₁ := runFrom_out i c₁ ops [] h₁
    have e₂ := runFrom_out i c₂ ops [] h₂
    rw [e₁] at e₂
    exact Option.some.inj e₂
  · intro i c h
    exact runFrom_out i c ops [] h

/-- Witness for C1 at the concrete history of two calls for bot 5 with
different tokens: the final registry keys are duplicate-free and both calls
returned the handle created by the first call. -/
theorem registry_single_handle_per_identity_witness :
    ((runFrom [] [(5, ['a'])]).2.map Prod.fst).Nodup ∧
    (⟨['a'], 0⟩ : Client) = ⟨['a'], 0⟩ := by
  have h := registry_single_handle_per_identity [(5, ['a']), (5, ['b'])]
  exact ⟨h.1 [(5, ['a'])] [(5, ['b'])] rfl,
    h.2.1 5 ⟨['a'], 0⟩ ⟨['a'], 0⟩ (by decide) (by decide)⟩

/-- Claim C9: for an identity already present in the registry, `get_client`
returns the cached handle, ignores the supplied credential entirely, and
leaves the registry unchanged. -/
theorem getClient_hit_ignores_token (i : Nat) (t : List Char) (r : Registry)
    (c : Client) (h : regGet i r = some c) : getClient i t r = (c, r) := by
  simp [getClient, h]

/-- Witness for C9: a later call for bot 1 with a different token still
receives the client bound to the first-seen token, registry untouched. -/
theorem getClient_hit_ignores_token_witness :
    getClient 1 "tok2".toList [(1, ⟨"tok1".toList, 0⟩)]
      = (⟨"tok1".toList, 0⟩, [(1, ⟨"tok1".toList, 0⟩)]) :=
  getClient_hit_ignores_token 1 "tok2".toList [(1, ⟨"tok1".toList, 0⟩)]
    ⟨"tok1".toList, 0⟩ (by decide)

/-- Claim C4: a credential containing no dot after optional prefix stripping
is not rejected outright — the whole remaining string is the identity
segment, and extraction succeeds whenever that string is valid base64 of
UTF-8 text parsing as an unsigned 64-bit integer. -/
theorem no_dot_whole_segment (t : List Char) (h : ∀ c ∈ stripBotToken t, c ≠ '.') :
    firstSegment (stripBotToken t) = stripBotToken t ∧
    (∀ bytes s n, base64Decode (stripBotToken t) = some bytes →
      utf8Decode bytes = some s → parseU64 s = some n →
      extractBotId t = .ok n) := by
  have hseg : firstSegment (stripBotToken t) = stripBotToken t :=
    takeWhile_of_no_dot _ h
  refine ⟨hseg, ?_⟩
  intro bytes s n hb hu hp
  simp [extractBotId, hseg, hb, hu, hp]

/-- Witness for C4 on the dot-free credential `"MTIz"`: the whole string is
the segment and extraction succeeds with identity 123. -/
theorem no_dot_whole_segment_witness :
    firstSegment (stripBotToken "MTIz".toList) = stripBotToken "MTIz".toList ∧
    extractBotId "MTIz".toList = .ok 123 := by
  refine ⟨(no_dot_whole_segment "MTIz".toList (by decide)).1, ?_⟩
  exact (no_dot_whole_segment "MTIz".toList (by decide)).2
    [49, 50, 51] "123".toList 123 (by decide) (by decide) (by decide)

/-- Claim C2 counterexample: line 211's `replace` removes every occurrence
of the version stem from the path-and-query, so a query parameter that
contains the stem is not preserved verbatim — the code's forwarded string
differs from the claimed one on this input. -/
theorem forward_string_mangles_query :
    pathStrOf 1 "/api/v1/c?u=/api/v1/d".toList = "c?u=d".toList ∧
    claimedForwardString 1 "/api/v1/c?u=/api/v1/d".toList = "c?u=/api/v1/d".toList ∧
    pathStrOf 1 "/api/v1/c?u=/api/v1/d".toList
      ≠ claimedForwardString 1 "/api/v1/c?u=/api/v1/d".toList := by
  exact ⟨by decide, by decide, by decide⟩

/-- Claim C2 (amended): when the request path is the version stem followed
by a remainder, and the stem does not re-occur in the remainder or the query,
route resolution sees exactly the remainder and the forwarded string is
exactly the remainder followed by the query, every query character preserved;
a path not starting with the stem reaches route resolution unchanged; and the
string handed to the upstream client is always the path-and-query image under
the code's stem removal. -/
theorem route_trim_and_forward (v : Nat) (rest q : List Char)
    (hno : containsSeg (apiUrl v) (rest ++ q) = false) :
    trimPath v (apiUrl v ++ rest) = rest ∧
    pathStrOf v (apiUrl v ++ (rest ++ q)) = rest ++ q ∧
    (∀ p, (apiUrl v).isPrefixOf p = false → trimPath v p = p) ∧
    (∀ (P R : Type) (resolve : TwMethod → List Char → Option P)
      (upstreamCall : Client → TwilightReq P → Except Unit R)
      (clients : Registry) (request : InboundRequest) (tr : TwilightReq P)
      (pq : List Char),
      (handleRequest v resolve upstreamCall clients request).sent = some tr →
      pathAndQuery request.uri = some pq →
      tr.pathStr = pathStrOf v pq) := by
  obtain ⟨pt, hshape⟩ := apiUrl_shape v
  have hne : apiUrl v ≠ [] := by rw [hshape]; simp
  have hrest : containsSeg (apiUrl v) rest = false := by
    cases hcr : containsSeg (apiUrl v) rest with
    | false => rfl
    | true =>
      have hup := containsSeg_append_left _ rest q hne hcr
      rw [hup] at hno
      exact Bool.noConfusion hno
  refine ⟨?_, ?_, ?_, ?_⟩
  · rw [trimPath, if_pos]
    · rw [hshape, removeAll_stem, ← hshape]
      exact removeAll_eq_self _ rest hrest
    · exact isPrefixOf_append_self (apiUrl v) rest
  · rw [pathStrOf, hshape, removeAll_stem, ← hshape]
    exact removeAll_eq_self _ _ hno
  · intro p hp
    simp [trimPath, hp]
  · intro P R resolve upstreamCall clients request tr pq hs hq
    obtain ⟨tm, p, bytes, rawToken, pq', hm, hp, hb, ha, hq', htr⟩ :=
      sent_inversion v resolve upstreamCall clients request tr hs
    rw [hq] at hq'
    rw [htr, Option.some.inj hq']

/-- Witness for C2 (amended) at the spec's own example: route resolution on
`/api/v10/channels/5/messages` sees `channels/5/messages` and the forwarded
path-and-query keeps the query `?after=7` verbatim. -/
theorem route_trim_and_forward_witness :
    trimPath 10 "/api/v10/channels/5/messages".toList = "channels/5/messages".toList ∧
    pathStrOf 10 "/api/v10/channels/5/messages?after=7".toList
      = "channels/5/messages?after=7".toList := by
  have h := route_trim_and_forward 10 "channels/5/messages".toList "?after=7".toList
    (by decide)
  have e1 : "/api/v10/channels/5/messages".toList
      = apiUrl 10 ++ "channels/5/messages".toList := by decide
  have e2 : "/api/v10/channels/5/messages?after=7".toList
      = apiUrl 10 ++ ("channels/5/messages".toList ++ "?after=7".toList) := by decide
  rw [e1, e2]
  exact ⟨h.1, h.2.1⟩

theorem convertMethod_error (m : Method) (e : RequestError)
    (h : convertMethod m = .error e) : e = .methodNotAllowed (methodStr m) := by
  cases m <;> simp [convertMethod, methodStr] at h <;> exact h.symm

/-- Claim C6: method conversion succeeds exactly for GET, POST, PUT, PATCH
and DELETE; any other method fails the request with `MethodNotAllowed`, and
that failure is detected before the body is read, before identity extraction
and before any upstream call. -/
theorem method_gate_exact {P R : Type} (v : Nat)
    (resolve : TwMethod → List Char → Option P)
    (upstreamCall : Client → TwilightReq P → Except Unit R)
    (clients : Registry) (request : InboundRequest) (e : RequestError)
    (h : convertMethod request.method = .error e) :
    e = .methodNotAllowed (methodStr request.method) ∧
    (handleRequest v resolve upstreamCall clients request).outcome = .error e ∧
    .bodyRead ∉ (handleRequest v resolve upstreamCall clients request).events ∧
    .authRead ∉ (handleRequest v resolve upstreamCall clients request).events ∧
    .idExtracted ∉ (handleRequest v resolve upstreamCall clients request).events ∧
    .upstream ∉ (handleRequest v resolve upstreamCall clients request).events ∧
    (∀ m : Method, (∃ tm, convertMethod m = .ok tm) ↔
      (m = .get ∨ m = .post ∨ m = .put ∨ m = .patch ∨ m = .delete)) := by
  refine ⟨convertMethod_error request.method e h, ?_, ?_, ?_, ?_, ?_, ?_⟩
  · simp [handleRequest, h]
  · simp [handleRequest, h]
  · simp [handleRequest, h]
  · simp [handleRequest, h]
  · simp [handleRequest, h]
  · intro m
    cases m <;> simp [convertMethod]

/-- Witness for C6 on a TRACE request: the outcome is the method-not-allowed
error and no upstream step ever happened. -/
theorem method_gate_exact_witness :
    (handleRequest 10 (fun (_ : TwMethod) (_ : List Char) => some ())
      (fun _ _ => Except.ok 0) []
      ⟨.trace, ⟨"/x".toList, [], true⟩, ⟨none⟩, .ok []⟩).outcome
      = .error (.methodNotAllowed "TRACE") ∧
    Ev.upstream ∉ (handleRequest 10 (fun (_ : TwMethod) (_ : List Char) => some ())
      (fun _ _ => Except.ok 0) []
      ⟨.trace, ⟨"/x".toList, [], true⟩, ⟨none⟩, .ok []⟩).events := by
  have h := method_gate_exact 10 (fun (_ : TwMethod) (_ : List Char) => some ())
    (fun _ _ => Except.ok 0) [] ⟨.trace, ⟨"/x".toList, [], true⟩, ⟨none⟩, .ok []⟩
    (.methodNotAllowed "TRACE") rfl
  exact ⟨h.2.1, h.2.2.2.2.2.1⟩

/-- Claim C10: with an allowed method and a resolvable path the whole body
is buffered before the authorization header is examined — the step trace
starts `methodOk, pathResolved, bodyRead`, and an authorization examination
can only appear immediately after those — and a transport failure while
buffering is reported as `ChunkingRequest` even when the credential is
missing or malformed. -/
theorem body_buffered_before_auth {P R : Type} (v : Nat)
    (resolve : TwMethod → List Char → Option P)
    (upstreamCall : Client → TwilightReq P → Except Unit R)
    (clients : Registry) (request : InboundRequest) (tm : TwMethod) (p : P)
    (hm : convertMethod request.method = .ok tm)
    (hp : resolve tm (trimPath v request.uri.path) = some p) :
    (∀ bytes, request.body = .ok bytes →
      ∃ rest, (handleRequest v resolve upstreamCall clients request).events
        = .methodOk :: .pathResolved :: .bodyRead :: rest) ∧
    (.authRead ∈ (handleRequest v resolve upstreamCall clients request).events →
      (handleRequest v resolve upstreamCall clients request).events.take 4
        = [.methodOk, .pathResolved, .bodyRead, .authRead]) ∧
    (request.body = .error () →
      (handleRequest v resolve upstreamCall clients request).outcome
          = .error .chunkingRequest ∧
      .authRead ∉ (handleRequest v resolve upstreamCall clients request).events ∧
      .upstream ∉ (handleRequest v resolve upstreamCall clients request).events) := by
  cases hb : request.body with
  | error u =>
    refine ⟨?_, ?_, ?_⟩
    · intro bytes hbb
      exact absurd hbb (by simp)
    · intro hmem
      exact absurd hmem (by simp [handleRequest, hm, hp, hb])
    · intro h3
      refine ⟨?_, ?_, ?_⟩ <;> simp [handleRequest, hm, hp, hb]
  | ok bytes0 =>
    have tree : ∃ rest, (handleRequest v resolve upstreamCall clients request).events
        = .methodOk :: .pathResolved :: .bodyRead :: rest ∧
        ((.authRead : Ev) ∈ (Ev.methodOk :: .pathResolved :: .bodyRead :: rest : List Ev) →
          (Ev.methodOk :: .pathResolved :: .bodyRead :: rest : List Ev).take 4
            = [.methodOk, .pathResolved, .bodyRead, .authRead]) := by
      cases ha : request.headers.authorization.bind headerToStr with
      | none =>
        refine ⟨[], by simp [handleRequest, hm, hp, hb, ha], ?_⟩
        intro hmem
        exact absurd hmem (by decide)
      | some rawToken =>
        cases he : extractBotId rawToken with
        | error e =>
          exact ⟨[.authRead], by simp [handleRequest, hm, hp, hb, ha, he], by decide⟩
        | ok botId =>
          cases hq : pathAndQuery request.uri with
          | none =>
            exact ⟨[.authRead, .idExtracted],
              by simp [handleRequest, hm, hp, hb, ha, he, hq], by decide⟩
          | some pq =>
            refine ⟨[.authRead, .idExtracted, .registryAccess, .upstream], ?_, by decide⟩
            simp only [handleRequest, hm, hp, hb, ha, he, hq]
            split <;> rfl
    obtain ⟨rest, hev, htake⟩ := tree
    refine ⟨?_, ?_, ?_⟩
    · intro bytes hbb
      exact ⟨rest, hev⟩
    · intro hmem
      rw [hev] at hmem ⊢
      exact htake hmem
    · intro h3
      exact absurd h3 (by simp)

/-- Witness for C10: a GET request with a resolvable path and no
authorization header still has its body read — the step trace begins with
the body-read step. -/
theorem body_buffered_before_auth_witness :
    ∃ rest, (handleRequest 10 (fun (_ : TwMethod) (_ : List Char) => some ())
      (fun _ _ => Except.ok 0) []
      ⟨.get, ⟨"/x".toList, [], true⟩, ⟨none⟩, .ok [9]⟩).events
      = .methodOk :: .pathResolved :: .bodyRead :: rest := by
  have h := body_buffered_before_auth 10 (fun (_ : TwMethod) (_ : List Char) => some ())
    (fun _ _ => Except.ok 0) [] ⟨.get, ⟨"/x".toList, [], true⟩, ⟨none⟩, .ok [9]⟩
    .get () rfl rfl
  exact h.1 [9] rfl

/-- Claim C7 counterexample: a request whose authorization header is absent
but whose body read fails is answered with `ChunkingRequest`, not
`MissingAuthorization` — the claimed outcome is not universal over requests
with a missing credential. -/
theorem missing_auth_not_universal :
    (⟨.get, ⟨"/x".toList, [], true⟩, ⟨none⟩,
        .error ()⟩ : InboundRequest).headers.authorization = none ∧
    (handleRequest 10 (fun (_ : TwMethod) (_ : List Char) => some ())
      (fun _ _ => Except.ok 0) []
      ⟨.get, ⟨"/x".toList, [], true⟩, ⟨none⟩, .error ()⟩).outcome
      = .error .chunkingRequest ∧
    (handleRequest 10 (fun (_ : TwMethod) (_ : List Char) => some ())
      (fun _ _ => Except.ok 0) []
      ⟨.get, ⟨"/x".toList, [], true⟩, ⟨none⟩, .error ()⟩).outcome
      ≠ .error .missingAuthorization := by
  exact ⟨rfl, by decide, by decide⟩

/-- Claim C7 (amended): a request that reaches the credential step (allowed
method, resolvable path, body buffered) and whose authorization header is
absent or unreadable is answered with `MissingAuthorization`; no upstream
call is made and the registry is neither consulted nor changed. -/
theorem missing_auth_short_circuit {P R : Type} (v : Nat)
    (resolve : TwMethod → List Char → Option P)
    (upstreamCall : Client → TwilightReq P → Except Unit R)
    (clients : Registry) (request : InboundRequest) (tm : TwMethod) (p : P)
    (bytes : List Nat)
    (hm : convertMethod request.method = .ok tm)
    (hp : resolve tm (trimPath v request.uri.path) = some p)
    (hb : request.body = .ok bytes)
    (ha : request.headers.authorization.bind headerToStr = none) :
    (handleRequest v resolve upstreamCall clients request).outcome
        = .error .missingAuthorization ∧
    .registryAccess ∉ (handleRequest v resolve upstreamCall clients request).events ∧
    .upstream ∉ (handleRequest v resolve upstreamCall clients request).events ∧
    (handleRequest v resolve upstreamCall clients request).registry = clients ∧
    (handleRequest v resolve upstreamCall clients request).sent = none := by
  refine ⟨?_, ?_, ?_, ?_, ?_⟩ <;> simp [handleRequest, hm, hp, hb, ha]

/-- Witness for C7 (amended) on a GET request with no authorization header. -/
theorem missing_auth_short_circuit_witness :
    (handleRequest 10 (fun (_ : TwMethod) (_ : List Char) => some ())
      (fun _ _ => Except.ok 0) []
      ⟨.get, ⟨"/x".toList, [], true⟩, ⟨none⟩, .ok [7]⟩).outcome
      = .error .missingAuthorization ∧
    (handleRequest 10 (fun (_ : TwMethod) (_ : List Char) => some ())
      (fun _ _ => Except.ok 0) []
      ⟨.get, ⟨"/x".toList, [], true⟩, ⟨none⟩, .ok [7]⟩).registry = [] := by
  have h := missing_auth_short_circuit 10 (fun (_ : TwMethod) (_ : List Char) => some ())
    (fun _ _ => Except.ok 0) [] ⟨.get, ⟨"/x".toList, [], true⟩, ⟨none⟩, .ok [7]⟩
    .get () [7] rfl rfl rfl rfl
  exact ⟨h.1, h.2.2.2.1⟩

/-- Claim C3: identity extraction yields 123 on
`"Bot " ++ base64("123") ++ ".signature.part"`, also without the `"Bot "`
prefix (the prefix is stripped exactly when present, case-sensitively — the
lowercase variant is not stripped and fails); and whenever the first
dot-separated segment is not valid base64 the request fails with the decode
error and no upstream call occurs. -/
theorem identity_extraction_cases {P R : Type} (v : Nat)
    (resolve : TwMethod → List Char → Option P)
    (upstreamCall : Client → TwilightReq P → Except Unit R)
    (clients : Registry) (request : InboundRequest) (tm : TwMethod) (p : P)
    (bytes : List Nat) (rawToken : List Char)
    (hm : convertMethod request.method = .ok tm)
    (hp : resolve tm (trimPath v request.uri.path) = some p)
    (hb : request.body = .ok bytes)
    (ha : request.headers.authorization.bind headerToStr = some rawToken)
    (hd : base64Decode (firstSegment (stripBotToken rawToken)) = none) :
    extractBotId "Bot MTIz.signature.part".toList = .ok 123 ∧
    extractBotId "MTIz.signature.part".toList = .ok 123 ∧
    extractBotId "bot MTIz.signature.part".toList = .error .base64Error ∧
    (handleRequest v resolve upstreamCall clients request).outcome
        = .error .base64Error ∧
    .upstream ∉ (handleRequest v resolve upstreamCall clients request).events ∧
    (handleRequest v resolve upstreamCall clients request).sent = none := by
  have hex : extractBotId rawToken = .error .base64Error := by
    unfold extractBotId
    rw [hd]
  refine ⟨by decide, by decide, by decide, ?_, ?_, ?_⟩ <;>
    simp [handleRequest, hm, hp, hb, ha, hex]

/-- Witness for C3 on the credential `"!!!"` (not base64): the request fails
with the decode error and nothing was sent upstream. -/
theorem identity_extraction_cases_witness :
    extractBotId "Bot MTIz.signature.part".toList = .ok 123 ∧
    (handleRequest 10 (fun (_ : TwMethod) (_ : List Char) => some ())
      (fun _ _ => Except.ok 0) []
      ⟨.get, ⟨"/x".toList, [], true⟩, ⟨some [33, 33, 33]⟩, .ok []⟩).outcome
      = .error .base64Error := by
  have h := identity_extraction_cases 10 (fun (_ : TwMethod) (_ : List Char) => some ())
    (fun _ _ => Except.ok 0) [] ⟨.get, ⟨"/x".toList, [], true⟩, ⟨some [33, 33, 33]⟩, .ok []⟩
    .get () [] "!!!".toList rfl rfl rfl (by decide) (by decide)
  exact ⟨h.1, h.2.2.2.1⟩

/-- Claim C5: the translated request carries no body when the buffered byte
sequence is empty and exactly those bytes unmodified otherwise. -/
theorem translated_body_exact {P R : Type} (v : Nat)
    (resolve : TwMethod → List Char → Option P)
    (upstreamCall : Client → TwilightReq P → Except Unit R)
    (clients : Registry) (request : InboundRequest) (bytes : List Nat)
    (tr : TwilightReq P)
    (hb : request.body = .ok bytes)
    (hs : (handleRequest v resolve upstreamCall clients request).sent = some tr) :
    tr.body = if bytes = [] then none else some bytes := by
  obtain ⟨tm, p, bytes', rawToken, pq, hm, hp, hb', ha, hq, htr⟩ :=
    sent_inversion v resolve upstreamCall clients request tr hs
  rw [hb] at hb'
  obtain rfl : bytes = bytes' := Except.ok.inj hb'
  rw [htr]

/-- Witness for C5: a request with body bytes `[1, 2]` is forwarded with
exactly those bytes. -/
theorem translated_body_exact_witness :
    (⟨some [1, 2], none, some ⟨some [66, 111, 116, 32, 77, 84, 73, 122, 46, 120]⟩,
      .get, (), "/y".toList⟩ : TwilightReq Unit).body
      = if ([1, 2] : List Nat) = [] then none else some [1, 2] :=
  translated_body_exact 10 (fun (_ : TwMethod) (_ : List Char) => some ())
    (fun _ _ => Except.ok 0) []
    ⟨.get, ⟨"/y".toList, [], true⟩,
      ⟨some [66, 111, 116, 32, 77, 84, 73, 122, 46, 120]⟩, .ok [1, 2]⟩
    [1, 2] _ rfl (by decide)

/-- Claim C8 counterexample: the service keys the metrics route on the URI
path alone — a POST to `/metrics` is served by the metrics handler, against
the claimed GET-only behavior. -/
theorem metrics_route_not_get_only :
    selectHandler .post "/metrics".toList = .metrics ∧
    claimedSelectHandler .post "/metrics".toList = .dispatch ∧
    selectHandler .post "/metrics".toList ≠ claimedSelectHandler .post "/metrics".toList ∧
    (service 10 "e".toList "u".toList (.ok [])
      (fun (_ : TwMethod) (_ : List Char) => some ())
      (fun _ _ => Except.ok 0) []
      ⟨.post, ⟨"/metrics".toList, [], true⟩, ⟨none⟩, .ok []⟩).resp
      = .metrics 200 [] := by
  exact ⟨by decide, by decide, by decide, by decide⟩

/-- Claim C8 (amended): every request whose URI path is `/metrics`,
regardless of method, is served by the metrics handler; that handler
bypasses the dispatch pipeline (no dispatch step happens), never reads the
registry (its response is the same for any registry) and leaves the registry
unchanged; a successfully encoded UTF-8 snapshot is served with status 200
and an encoding failure produces status 500 with the diagnostic body. -/
theorem metrics_route_frame {P R : Type} (v : Nat) (dbgEnc dbgUtf8 : List Char)
    (encoded : Except Unit (List Nat))
    (resolve : TwMethod → List Char → Option P)
    (upstreamCall : Client → TwilightReq P → Except Unit R)
    (clients clients₂ : Registry) (request : InboundRequest)
    (hpath : request.uri.path = "/metrics".toList) :
    (service v dbgEnc dbgUtf8 encoded resolve upstreamCall clients request).resp
      = .metrics (handleMetrics dbgEnc dbgUtf8 encoded).1
          (handleMetrics dbgEnc dbgUtf8 encoded).2 ∧
    (service v dbgEnc dbgUtf8 encoded resolve upstreamCall clients request).registry
      = clients ∧
    (service v dbgEnc dbgUtf8 encoded resolve upstreamCall clients request).events = [] ∧
    (service v dbgEnc dbgUtf8 encoded resolve upstreamCall clients request).resp
      = (service v dbgEnc dbgUtf8 encoded resolve upstreamCall clients₂ request).resp ∧
    (encoded = .error () → handleMetrics dbgEnc dbgUtf8 encoded = (500, dbgEnc)) ∧
    (∀ buf s, encoded = .ok buf → utf8Decode buf = some s →
      handleMetrics dbgEnc dbgUtf8 encoded = (200, s)) := by
  refine ⟨?_, ?_, ?_, ?_, ?_, ?_⟩
  · simp [service, selectHandler, hpath]
  · simp [service, selectHandler, hpath]
  · simp [service, selectHandler, hpath]
  · simp [service, selectHandler, hpath]
  · intro he
    simp [handleMetrics, he]
  · intro buf s he hu
    simp [handleMetrics, he, hu]

/-- Witness for C8 (amended): a DELETE request to `/metrics` with a snapshot
encoding to the single byte `0x41` is served the text `A` with status 200,
and the registry (holding one client) is untouched. -/
theorem metrics_route_frame_witness :
    (service 10 "e".toList "u".toList (.ok [65])
      (fun (_ : TwMethod) (_ : List Char) => some ())
      (fun _ _ => Except.ok 0) [(1, ⟨"t".toList, 0⟩)]
      ⟨.delete, ⟨"/metrics".toList, [], true⟩, ⟨none⟩, .ok []⟩).registry
      = [(1, ⟨"t".toList, 0⟩)] ∧
    handleMetrics "e".toList "u".toList (.ok [65]) = (200, ['A']) := by
  have h := metrics_route_frame 10 "e".toList "u".toList (.ok [65])
    (fun (_ : TwMethod) (_ : List Char) => some ())
    (fun _ _ => Except.ok 0) [(1, ⟨"t".toList, 0⟩)] []
    ⟨.delete, ⟨"/metrics".toList, [], true⟩, ⟨none⟩, .ok []⟩ rfl
  exact ⟨h.2.1, h.2.2.2.2.2 [65] ['A'] rfl (by decide)⟩

end HttpProxy
